import Mathlib

/- Formal model of the PolyNER entity-span resolution core
   (polyner/entity_recognition.py and polyner/core.py).

   Python strings are modelled as `List Char`; Python `int` as `Int`
   (positions may be negative, e.g. `str.find` returns -1); Python
   `float` confidence scores as `ℚ`; a raised exception as
   `Except.error ()`.  External collaborators (the Hugging Face
   pipeline, spaCy models, the language detector, the tokenizer, the
   emoji classifier) are parameters of the model, and every call the
   cascade makes to a span labeler or to the language classifier is
   counted in a `Calls` record. -/

abbrev Str := List Char

/-- Python `str.strip()` (trim leading and trailing whitespace). -/
def pyStrip (s : Str) : Str :=
  ((s.dropWhile Char.isWhitespace).reverse.dropWhile Char.isWhitespace).reverse

/-- Python `str.lower()`, modelled characterwise. -/
def lowerStr (s : Str) : Str := s.map Char.toLower

/-- Python `text.find(pat, s)` restricted to successful results:
the least position `i ≥ s` at which `pat` occurs in `text`
(`none` when there is no occurrence, where Python returns -1). -/
def findFrom (text pat : Str) (s : Nat) : Option Nat :=
  (List.range (text.length + 1)).find? (fun i => s ≤ i && pat.isPrefixOf (text.drop i))

/-- Python `text.find(pat, s)` with the -1 convention. -/
def findI (text pat : Str) (s : Nat) : Int :=
  match findFrom text pat s with
  | some p => (p : Int)
  | none => -1

/-- Python `needle in hay` for strings (substring containment). -/
def substrB (needle hay : Str) : Bool := (findFrom hay needle 0).isSome

/-- The characters of Python's `string.punctuation`. -/
def punctuationChars : Str := "!\"#$%&'()*+,-./:;<=>?@[\\]^_`{|}~".toList

/-- A string all of whose characters are punctuation characters
(the plain-English reading of "pure punctuation"). -/
def isPurePunct (s : Str) : Bool := s.all (fun c => punctuationChars.contains c)

/-- Python slice `text[a:b]` for `0 ≤ a ≤ b`. -/
def sliceI (text : Str) (a b : Int) : Str :=
  (text.drop a.toNat).take (b - a).toNat

/-- An entity span, the dictionary form used throughout
`entity_recognition.py`.  `stop` models the Python key `"end"`
(a Lean keyword).  Optional fields model keys that are present only
for some producers. -/
structure Ent where
  text : Str
  start : Int
  stop : Int
  label : Str
  score : Option ℚ := none
  source : Option Str := none
  language : Option (Option Str) := none
  descr : Option Str := none
deriving DecidableEq, Repr

/-- The overlap test of `DictionaryEntityRecognizer.recognize_entities`:
`entity["start"] < existing["end"] and entity["end"] > existing["start"]`. -/
def spansOverlap (a b : Ent) : Prop := a.start < b.stop ∧ a.stop > b.start

instance (a b : Ent) : Decidable (spansOverlap a b) :=
  inferInstanceAs (Decidable (_ ∧ _))

/-- Sort key `lambda e: e["start"]`. -/
def startLe (a b : Ent) : Prop := a.start ≤ b.start

instance : DecidableRel startLe := fun a b => inferInstanceAs (Decidable (_ ≤ _))

instance : IsTotal Ent startLe := ⟨fun a b => Int.le_total a.start b.start⟩

instance : IsTrans Ent startLe := ⟨fun _ _ _ h h' => Int.le_trans h h'⟩

/-- One step of the overlap-removal loop: scan the accepted list for
the first accepted span the new span overlaps; replace it in place if
the new span is strictly longer, otherwise discard the new span; if no
accepted span overlaps, append the new span. -/
def insertResolve (acc : List Ent) (e : Ent) : List Ent :=
  match acc with
  | [] => [e]
  | x :: xs =>
    if spansOverlap e x then
      if x.stop - x.start < e.stop - e.start then e :: xs else x :: xs
    else
      x :: insertResolve xs e

/-- The overlap-resolution step of `recognize_entities` (lines 307-331):
sort by `start` (Python's sort is stable; `insertionSort` is the stable
sort) and run the greedy accept/replace/discard loop. -/
def resolveOverlaps (spans : List Ent) : List Ent :=
  (List.insertionSort startLe spans).foldl insertResolve []

/-- A registered dictionary: `{"terms": ..., "case_sensitive": ...}`. -/
structure DictEntry where
  terms : List Str
  case_sensitive : Bool
deriving DecidableEq, Repr

/-- The recognizer state: `entity_dictionaries`, an insertion-ordered
mapping from entity type to its dictionary. -/
structure DictionaryEntityRecognizer where
  entity_dictionaries : List (Str × DictEntry) := []
deriving DecidableEq, Repr

/-- Descending-length order on terms (`sorted(terms, key=len, reverse=True)`,
stable). -/
def lenGe (a b : Str) : Prop := b.length ≤ a.length

instance : DecidableRel lenGe := fun a b => inferInstanceAs (Decidable (_ ≤ _))

/-- Insert-or-replace for a Python dict keyed by entity type
(replacing a key keeps its position; a new key is appended). -/
def upsert (d : List (Str × DictEntry)) (k : Str) (v : DictEntry) : List (Str × DictEntry) :=
  match d with
  | [] => [(k, v)]
  | (k', v') :: rest => if k' = k then (k, v) :: rest else (k', v') :: upsert rest k v

/-- `DictionaryEntityRecognizer.add_entity_dictionary`. -/
def add_entity_dictionary (r : DictionaryEntityRecognizer) (entity_type : Str)
    (terms : List Str) (case_sensitive : Bool) : DictionaryEntityRecognizer :=
  { entity_dictionaries :=
      upsert r.entity_dictionaries entity_type
        { terms := List.insertionSort lenGe terms, case_sensitive := case_sensitive } }

/-- The `while start < len(match_text)` occurrence loop, fuel-structured:
each iteration advances `start` past the reported match position, so
`mt.length + 1` iterations always suffice. -/
def occsGo (mt st : Str) : Nat → Nat → List Nat
  | 0, _ => []
  | fuel + 1, s =>
    if s < mt.length then
      match findFrom mt st s with
      | none => []
      | some pos => pos :: occsGo mt st fuel (pos + 1)
    else []

/-- All occurrence positions reported by the scan loop. -/
def occs (mt st : Str) : List Nat := occsGo mt st (mt.length + 1) 0

/-- The spans one term contributes (`original_term = text[pos : pos+len(term)]`). -/
def matchesForTerm (text : Str) (cs : Bool) (entity_type term : Str) : List Ent :=
  let mt := if cs then text else lowerStr text
  let st := if cs then term else lowerStr term
  (occs mt st).map fun pos =>
    { text := (text.drop pos).take term.length
      start := (pos : Int)
      stop := ((pos + term.length : Nat) : Int)
      label := entity_type
      descr := some ("Custom ".toList ++ entity_type) }

/-- The raw (possibly overlapping) candidate list, in insertion order
over entity types and terms. -/
def dictRaw (r : DictionaryEntityRecognizer) (text : Str) : List Ent :=
  r.entity_dictionaries.flatMap fun td =>
    td.2.terms.flatMap fun term => matchesForTerm text td.2.case_sensitive td.1 term

/-- `DictionaryEntityRecognizer.recognize_entities`: match every term of
every registered dictionary, then resolve overlaps. -/
def recognize_entities (r : DictionaryEntityRecognizer) (text : Str) : List Ent :=
  resolveOverlaps (dictRaw r text)

/-- Sentence-terminal punctuation (`[.!?]`). -/
def isSentEndB (c : Char) : Bool := c = '.' || c = '!' || c = '?'

/-- Is the previous character (head of the reversed current segment)
sentence-terminal? -/
def headSentEnd : Str → Bool
  | [] => false
  | p :: _ => isSentEndB p

/-- State machine for `re.split(r"(?<=[.!?])\s+", text)`.  `acc` is the
current segment reversed; `skipping` is true while consuming the
whitespace run of a delimiter (a delimiter starts at a whitespace
character whose predecessor is sentence-terminal and greedily takes the
whole whitespace run). -/
def splitGo : Str → Str → Bool → List Str
  | [], acc, _ => [acc.reverse]
  | c :: rest, acc, true =>
    if c.isWhitespace then splitGo rest acc true
    else splitGo rest [c] false
  | c :: rest, acc, false =>
    if c.isWhitespace && headSentEnd acc then acc.reverse :: splitGo rest [] true
    else splitGo rest (c :: acc) false

/-- `re.split(r"(?<=[.!?])\s+", text)`. -/
def splitSentences (text : Str) : List Str := splitGo text [] false

/-- A prediction of the Hugging Face NER pipeline (cascade step 1).
`score := none` models a prediction dict without a `"score"` key. -/
structure HFPred where
  word : Str
  start : Int
  stop : Int
  entity_group : Str
  score : Option ℚ := none
deriving DecidableEq, Repr

/-- A spaCy entity (`ent.text`, `ent.start_char`, `ent.end_char`, `ent.label_`). -/
structure SpEnt where
  text : Str
  start_char : Int
  end_char : Int
  label : Str
deriving DecidableEq, Repr

/-- Invocation counts of the span-labeler and language-classifier
collaborators, one field per cascade collaborator. -/
structure Calls where
  hf : Nat := 0
  spacyDirect : Nat := 0
  detect : Nat := 0
  langModel : Nat := 0
  fallback : Nat := 0
deriving DecidableEq, Repr

/-- Pointwise sum of invocation counts. -/
def addCalls (a b : Calls) : Calls :=
  { hf := a.hf + b.hf, spacyDirect := a.spacyDirect + b.spacyDirect,
    detect := a.detect + b.detect, langModel := a.langModel + b.langModel,
    fallback := a.fallback + b.fallback }

/-- A spaCy-model collaborator: text to entities, or an exception. -/
abbrev SpacyFn := Str → Except Unit (List SpEnt)

/-- The external collaborators of `recognize_entities_multilingual`.
`hf` is the Hugging Face pipeline (step 1); `spacyDirect modelName` is
`spacy.load(model_name)` followed by the call on the text (step 2);
`detect` is `detect_language` (total: it catches its own exception and
returns `None`); `pathExists` is `os.path.exists(model_name)`;
`fallback` is `spacy.load("en_core_web_sm")` plus the call (step 4). -/
structure Env where
  hf : Str → Except Unit (List HFPred)
  pathExists : Bool
  spacyDirect : Str → SpacyFn
  detect : Str → Option Str
  fallback : SpacyFn

/-- `pred.get("score", 1.0)`. -/
def predScore (p : HFPred) : ℚ := p.score.getD 1

/-- Step-1 keep condition:
`pred.get("score", 1.0) > confidence_threshold and not pred["word"].strip() in string.punctuation`. -/
def keepPred (threshold : ℚ) (p : HFPred) : Bool :=
  decide (predScore p > threshold) && !(substrB (pyStrip p.word) punctuationChars)

/-- The entity dict built from a kept step-1 prediction. -/
def predToEnt (p : HFPred) : Ent :=
  { text := p.word, start := p.start, stop := p.stop, label := p.entity_group,
    score := some (predScore p), source := some "huggingface".toList }

/-- Step 1's filtered result. -/
def filterStep1 (threshold : ℚ) (preds : List HFPred) : List Ent :=
  (preds.filter (keepPred threshold)).map predToEnt

/-- The punctuation filter applied by steps 2-4:
`not ent.text.strip() in string.punctuation`. -/
def keepSp (e : SpEnt) : Bool := !(substrB (pyStrip e.text) punctuationChars)

/-- The entity dict built from a kept spaCy entity, offset by `off`
(step 3 adds `current_pos`; steps 2 and 4 use offset 0). -/
def spToEnt (src : Str) (lang : Option (Option Str)) (off : Int) (e : SpEnt) : Ent :=
  { text := e.text, start := off + e.start_char, stop := off + e.end_char,
    label := e.label, source := some src, language := lang }

/-- The step-2 trigger:
`model_name.endswith(".spacy") or model_name.find("_core_") > 0 or os.path.exists(model_name)`. -/
def step2Trigger (env : Env) (model_name : Str) : Bool :=
  ".spacy".toList.isSuffixOf model_name || decide (findI model_name "_core_".toList 0 > 0)
    || env.pathExists

/-- Model selection in step 3: `models[lang]` if present, else
`models.get("en", next(iter(models.values())))` (which raises
`StopIteration` on an empty dict). -/
def pickModel (models : List (Str × SpacyFn)) (lang : Option Str) : Except Unit SpacyFn :=
  match lang.bind (fun l => (models.find? (fun kv => kv.1 = l)).map Prod.snd) with
  | some m => .ok m
  | none =>
    match (models.find? (fun kv => kv.1 = "en".toList)).map Prod.snd with
    | some m => .ok m
    | none =>
      match models with
      | [] => .error ()
      | (_, m) :: _ => .ok m

/-- The sentence loop of step 3 over the pre-split sentences, threading
`current_pos` and the accumulated entities.  Returns the collaborator
invocation counts the loop makes together with either the accumulated
list or the exception that aborted the whole step. -/
def step3Go (env : Env) (models : List (Str × SpacyFn)) :
    List Str → Nat → List Ent → Calls × Except Unit (List Ent)
  | [], _, acc => ({}, .ok acc)
  | s :: rest, pos, acc =>
    if pyStrip s = [] then step3Go env models rest (pos + s.length + 1) acc
    else
      let lang := env.detect s
      match pickModel models lang with
      | .error _ => ({ detect := 1 }, .error ())
      | .ok m =>
        match m s with
        | .error _ => ({ detect := 1, langModel := 1 }, .error ())
        | .ok ents =>
          let news := (ents.filter keepSp).map
            (spToEnt "spacy_multilingual".toList (some lang) (pos : Int))
          let r := step3Go env models rest (pos + s.length + 1) (acc ++ news)
          (addCalls { detect := 1, langModel := 1 } r.1, r.2)

/-- Step 4 (last-resort English model); returns its filtered entities
unconditionally, or `[]` on an exception. -/
def cascadeFrom4 (env : Env) (text : Str) : List Ent × Calls :=
  match env.fallback text with
  | .ok ents => (((ents.filter keepSp).map (spToEnt "spacy_fallback".toList none 0)), { fallback := 1 })
  | .error _ => ([], { fallback := 1 })

/-- Steps 3-4 of the cascade. -/
def cascadeFrom3 (env : Env) (models : Option (List (Str × SpacyFn))) (text : Str) :
    List Ent × Calls :=
  match models with
  | none => cascadeFrom4 env text
  | some ms =>
    let r := step3Go env ms (splitSentences text) 0 []
    match r.2 with
    | .error _ =>
      let r4 := cascadeFrom4 env text
      (r4.1, addCalls r.1 r4.2)
    | .ok acc =>
      let sorted := List.insertionSort startLe acc
      if sorted = [] then
        let r4 := cascadeFrom4 env text
        (r4.1, addCalls r.1 r4.2)
      else (sorted, r.1)

/-- Steps 2-4 of the cascade. -/
def cascadeFrom2 (env : Env) (model_name : Str) (models : Option (List (Str × SpacyFn)))
    (text : Str) : List Ent × Calls :=
  if step2Trigger env model_name then
    match env.spacyDirect model_name text with
    | .ok ents =>
      let kept := (ents.filter keepSp).map (spToEnt "spacy".toList none 0)
      if kept = [] then
        let r := cascadeFrom3 env models text
        (r.1, addCalls { spacyDirect := 1 } r.2)
      else (kept, { spacyDirect := 1 })
    | .error _ =>
      let r := cascadeFrom3 env models text
      (r.1, addCalls { spacyDirect := 1 } r.2)
  else cascadeFrom3 env models text

/-- `recognize_entities_multilingual(text, model_name, models, confidence_threshold)`,
instrumented with collaborator invocation counts. -/
def recognize_entities_multilingual (env : Env) (text : Str) (model_name : Str)
    (models : Option (List (Str × SpacyFn))) (confidence_threshold : ℚ) :
    List Ent × Calls :=
  if text = [] then ([], {})
  else
    match env.hf text with
    | .ok preds =>
      let ents := filterStep1 confidence_threshold preds
      if ents = [] then
        let r := cascadeFrom2 env model_name models text
        (r.1, addCalls { hf := 1 } r.2)
      else (ents, { hf := 1 })
    | .error _ =>
      let r := cascadeFrom2 env model_name models text
      (r.1, addCalls { hf := 1 } r.2)

/-- A sentence span of `PolyNER.process_multi` (step 1):
`{"text", "start", "end", "language"}`. -/
structure SentSpan where
  text : Str
  start : Nat
  stop : Nat
  language : Option Str
deriving DecidableEq, Repr

/-- The sentence-span loop of `process_multi`: empty segments are
skipped (without advancing the cursor); each retained segment gets the
running-cursor offsets, and the cursor advances by the segment length
plus 1 for the delimiter. -/
def sentenceSpansGo (detect : Str → Option Str) : List Str → Nat → List SentSpan
  | [], _ => []
  | s :: rest, pos =>
    if s = [] then sentenceSpansGo detect rest pos
    else
      { text := s, start := pos, stop := pos + s.length, language := detect s }
        :: sentenceSpansGo detect rest (pos + s.length + 1)

/-- Sentence segmentation with offsets and language, as in
`process_multi` lines 137-152. -/
def sentence_spans (detect : Str → Option Str) (text : Str) : List SentSpan :=
  sentenceSpansGo detect (splitSentences text) 0

/-- A row of the DataFrame produced by `process_multi`. -/
structure Row where
  token : Str
  language : Option Str
  is_emoji : Bool
  norm_token : Str
  entity_label : Option Str
  entity_text : Option Str
  entity_score : Option ℚ
deriving DecidableEq, Repr

/-- The collaborators of `PolyNER.process_multi` beyond the cascade's:
the tokenizer, the emoji classifier and the token normalizer (thin
utilities, not span labelers or language classifiers). -/
structure PMEnv where
  env : Env
  tokenize : Str → List Str
  emoji : Str → Bool
  normalizeTok : Str → Str

/-- The token loop of `process_multi`: locate each token by a forward
search from the last match (falling back to a search from the start,
and to -1 if absent), find its sentence by point containment and its
entity by full containment, each by first match. -/
def tokLoop (pme : PMEnv) (text : Str) (normalize : Bool) (sspans : List SentSpan)
    (ents : List Ent) : List Str → Nat → List Row
  | [], _ => []
  | tok :: rest, tstart =>
    let pos : Int :=
      match findFrom text tok tstart with
      | some p => (p : Int)
      | none =>
        match findFrom text tok 0 with
        | some p => (p : Int)
        | none => -1
    let tokEnd : Int := pos + tok.length
    let em := pme.emoji tok
    let sent := sspans.find? (fun sp => decide ((sp.start : Int) ≤ pos) && decide (pos < (sp.stop : Int)))
    let lang : Option Str := if em then none else (sent.bind fun sp => sp.language)
    let normTok := if normalize && !em then pme.normalizeTok tok else tok
    let entM := if em then none
      else ents.find? (fun e => decide (e.start ≤ pos) && decide (tokEnd ≤ e.stop))
    { token := tok
      language := lang
      is_emoji := em
      norm_token := normTok
      entity_label := entM.map Ent.label
      entity_text := entM.bind fun e => if e.text = [] then none else some e.text
      entity_score := entM.bind Ent.score }
      :: tokLoop pme text normalize sspans ents rest (pos + 1).toNat

/-- `PolyNER.process_multi(text, model_name, confidence_threshold)`:
empty text short-circuits; otherwise sentence spans with language
detection, the recognition cascade, then token alignment.  Returns the
DataFrame rows together with all span-labeler and language-classifier
invocation counts. -/
def process_multi (pme : PMEnv) (text : Str) (model_name : Str)
    (language_models : List (Str × SpacyFn)) (normalize : Bool)
    (confidence_threshold : ℚ) : List Row × Calls :=
  if text = [] then ([], {})
  else
    let sspans := sentence_spans pme.env.detect text
    let detCalls : Calls := { detect := (splitSentences text).countP (fun s => !s.isEmpty) }
    let r := recognize_entities_multilingual pme.env text model_name
      (some language_models) confidence_threshold
    let rows := tokLoop pme text normalize sspans r.1 (pme.tokenize text) 0
    (rows, addCalls detCalls r.2)


theorem mem_insertResolve {acc : List Ent} {e x : Ent} (h : x ∈ insertResolve acc e) :
    x ∈ acc ∨ x = e := by
  induction acc with
  | nil => simpa [insertResolve] using h
  | cons a as ih =>
    simp only [insertResolve] at h
    split at h
    · split at h
      · rcases List.mem_cons.1 h with h | h
        · exact Or.inr h
        · exact Or.inl (List.mem_cons_of_mem _ h)
      · exact Or.inl h
    · rcases List.mem_cons.1 h with h | h
      · exact Or.inl (h ▸ List.mem_cons_self _ _)
      · rcases ih h with h' | h'
        · exact Or.inl (List.mem_cons_of_mem _ h')
        · exact Or.inr h'

theorem insertResolve_pairwise {acc : List Ent} {e : Ent}
    (hpw : acc.Pairwise (fun a b => ¬ spansOverlap a b))
    (hst : ∀ x ∈ acc, x.start ≤ e.start) :
    (insertResolve acc e).Pairwise (fun a b => ¬ spansOverlap a b) := by
  induction acc with
  | nil => simp [insertResolve]
  | cons a as ih =>
    rcases List.pairwise_cons.1 hpw with ⟨ha, has⟩
    by_cases hov : spansOverlap e a
    · by_cases hlen : a.stop - a.start < e.stop - e.start
      · simp only [insertResolve, if_pos hov, if_pos hlen]
        refine List.pairwise_cons.2 ⟨?_, has⟩
        intro y hy
        have hay := ha y hy
        have h1 := hst a (List.mem_cons_self _ _)
        have h2 := hst y (List.mem_cons_of_mem _ hy)
        unfold spansOverlap at *
        omega
      · simp only [insertResolve, if_pos hov, if_neg hlen]
        exact hpw
    · simp only [insertResolve, if_neg hov]
      refine List.pairwise_cons.2
        ⟨?_, ih has (fun x hx => hst x (List.mem_cons_of_mem _ hx))⟩
      intro y hy
      rcases mem_insertResolve hy with h | rfl
      · exact ha y h
      · unfold spansOverlap at *; omega

theorem foldl_insertResolve_pairwise :
    ∀ (l acc : List Ent), l.Pairwise startLe →
      acc.Pairwise (fun a b => ¬ spansOverlap a b) →
      (∀ x ∈ acc, ∀ e ∈ l, x.start ≤ e.start) →
      (l.foldl insertResolve acc).Pairwise (fun a b => ¬ spansOverlap a b)
  | [], acc, _, hacc, _ => by simpa using hacc
  | e :: rest, acc, hl, hacc, hcross => by
    simp only [List.foldl_cons]
    rcases List.pairwise_cons.1 hl with ⟨he, hrest⟩
    apply foldl_insertResolve_pairwise rest _ hrest
    · exact insertResolve_pairwise hacc (fun x hx => hcross x hx e (List.mem_cons_self _ _))
    · intro x hx e' he'
      rcases mem_insertResolve hx with h | rfl
      · exact hcross x h e' (List.mem_cons_of_mem _ he')
      · exact he e' he'

/-- C1: for every list of candidate entity spans, the output of the
overlap-resolution step is mutually non-overlapping: every pair of
distinct output spans `a`, `b` satisfies
`not (a.start < b.end and a.end > b.start)`. -/
theorem C1_resolveOverlaps_nonoverlapping (S : List Ent) :
    (resolveOverlaps S).Pairwise
      (fun a b => ¬ (a.start < b.stop ∧ a.stop > b.start)) := by
  have hs : (List.insertionSort startLe S).Pairwise startLe :=
    List.sorted_insertionSort startLe S
  have h := foldl_insertResolve_pairwise (List.insertionSort startLe S) [] hs
    List.Pairwise.nil (by simp)
  exact h.imp (fun hne => by simpa [spansOverlap] using hne)

theorem spansOverlap_symm {a b : Ent} (h : spansOverlap a b) : spansOverlap b a :=
  ⟨h.2, h.1⟩

theorem insertResolve_sorted {acc : List Ent} {e : Ent}
    (hpw : acc.Pairwise (fun a b => ¬ spansOverlap a b))
    (hsort : acc.Pairwise startLe)
    (hst : ∀ x ∈ acc, x.start ≤ e.start)
    (hwf : ∀ x ∈ acc, x.start < x.stop) :
    (insertResolve acc e).Pairwise startLe := by
  induction acc with
  | nil => simp [insertResolve]
  | cons a as ih =>
    rcases List.pairwise_cons.1 hpw with ⟨ha, has⟩
    rcases List.pairwise_cons.1 hsort with ⟨hsa, hsas⟩
    by_cases hov : spansOverlap e a
    · by_cases hlen : a.stop - a.start < e.stop - e.start
      · simp only [insertResolve, if_pos hov, if_pos hlen]
        refine List.pairwise_cons.2 ⟨?_, hsas⟩
        intro y hy
        have hay := ha y hy
        have hsy := hsa y hy
        have hwy := hwf y (List.mem_cons_of_mem _ hy)
        unfold spansOverlap startLe at *
        omega
      · simp only [insertResolve, if_pos hov, if_neg hlen]
        exact hsort
    · simp only [insertResolve, if_neg hov]
      refine List.pairwise_cons.2
        ⟨?_, ih has hsas (fun x hx => hst x (List.mem_cons_of_mem _ hx))
            (fun x hx => hwf x (List.mem_cons_of_mem _ hx))⟩
      intro y hy
      rcases mem_insertResolve hy with h | rfl
      · exact hsa y h
      · exact hst a (List.mem_cons_self _ _)

theorem foldl_insertResolve_sorted :
    ∀ (l acc : List Ent), l.Pairwise startLe → (∀ e ∈ l, e.start < e.stop) →
      acc.Pairwise (fun a b => ¬ spansOverlap a b) →
      acc.Pairwise startLe →
      (∀ x ∈ acc, x.start < x.stop) →
      (∀ x ∈ acc, ∀ e ∈ l, x.start ≤ e.start) →
      (l.foldl insertResolve acc).Pairwise startLe
  | [], acc, _, _, _, hsort, _, _ => by simpa using hsort
  | e :: rest, acc, hl, hwl, hacc, hsort, hwacc, hcross => by
    simp only [List.foldl_cons]
    rcases List.pairwise_cons.1 hl with ⟨he, hrest⟩
    have hste : ∀ x ∈ acc, x.start ≤ e.start :=
      fun x hx => hcross x hx e (List.mem_cons_self _ _)
    apply foldl_insertResolve_sorted rest _ hrest
      (fun x hx => hwl x (List.mem_cons_of_mem _ hx))
      (insertResolve_pairwise hacc hste)
      (insertResolve_sorted hacc hsort hste hwacc)
    · intro x hx
      rcases mem_insertResolve hx with h | rfl
      · exact hwacc x h
      · exact hwl x (List.mem_cons_self _ _)
    · intro x hx e' he'
      rcases mem_insertResolve hx with h | rfl
      · exact hcross x h e' (List.mem_cons_of_mem _ he')
      · exact he e' he'

theorem insertResolve_of_no_overlap {acc : List Ent} {e : Ent}
    (h : ∀ x ∈ acc, ¬ spansOverlap e x) : insertResolve acc e = acc ++ [e] := by
  induction acc with
  | nil => rfl
  | cons a as ih =>
    have hna : ¬ spansOverlap e a := h a (List.mem_cons_self _ _)
    simp only [insertResolve, if_neg hna, List.cons_append]
    rw [ih (fun x hx => h x (List.mem_cons_of_mem _ hx))]

theorem foldl_insertResolve_fixed :
    ∀ (l acc : List Ent), l.Pairwise (fun a b => ¬ spansOverlap a b) →
      (∀ e ∈ l, ∀ x ∈ acc, ¬ spansOverlap e x) →
      l.foldl insertResolve acc = acc ++ l
  | [], acc, _, _ => by simp
  | e :: rest, acc, hl, hcross => by
    rcases List.pairwise_cons.1 hl with ⟨he, hrest⟩
    have h1 : insertResolve acc e = acc ++ [e] :=
      insertResolve_of_no_overlap (fun x hx => hcross e (List.mem_cons_self _ _) x hx)
    simp only [List.foldl_cons, h1]
    rw [foldl_insertResolve_fixed rest (acc ++ [e]) hrest]
    · simp
    · intro e' he' x hx
      rcases List.mem_append.1 hx with h | h
      · exact hcross e' (List.mem_cons_of_mem _ he') x h
      · have : x = e := by simpa using h
        subst this
        exact fun hc => he e' he' (spansOverlap_symm hc)

/-- C6 (counterexample): idempotence fails for span lists that contain a
malformed (zero-width) span: on
`[(3,10), (3,3), (5,30)]` the first pass keeps the zero-width span and
the in-place replacement puts `(5,30)` before it, so a second pass
re-sorts and returns a differently ordered list. -/
theorem C6_counterexample :
    resolveOverlaps (resolveOverlaps
        [{ text := [], start := 3, stop := 10, label := [] },
         { text := [], start := 3, stop := 3, label := [] },
         { text := [], start := 5, stop := 30, label := [] }])
      ≠ resolveOverlaps
        [{ text := [], start := 3, stop := 10, label := [] },
         { text := [], start := 3, stop := 3, label := [] },
         { text := [], start := 5, stop := 30, label := [] }] := by decide

/-- C6 (amended): overlap resolution is idempotent on every span list
whose spans are well-formed (`start < end`, the EntitySpan invariant):
`resolveOverlaps (resolveOverlaps S) = resolveOverlaps S`. -/
theorem C6_resolveOverlaps_idempotent (S : List Ent)
    (hwf : ∀ e ∈ S, e.start < e.stop) :
    resolveOverlaps (resolveOverlaps S) = resolveOverlaps S := by
  have hs : (List.insertionSort startLe S).Pairwise startLe :=
    List.sorted_insertionSort startLe S
  have hwf' : ∀ e ∈ List.insertionSort startLe S, e.start < e.stop :=
    fun e he => hwf e ((List.mem_insertionSort startLe).1 he)
  have hTpw : (resolveOverlaps S).Pairwise (fun a b => ¬ spansOverlap a b) :=
    foldl_insertResolve_pairwise _ [] hs List.Pairwise.nil (by simp)
  have hTsort : (resolveOverlaps S).Pairwise startLe :=
    foldl_insertResolve_sorted _ [] hs hwf' List.Pairwise.nil List.Pairwise.nil
      (by simp) (by simp)
  show (List.insertionSort startLe (resolveOverlaps S)).foldl insertResolve [] = _
  rw [List.Sorted.insertionSort_eq hTsort]
  rw [foldl_insertResolve_fixed _ [] hTpw (by simp)]
  simp

theorem C6_witness :
    (∀ e ∈ ([{ text := [], start := 0, stop := 5, label := [] },
             { text := [], start := 3, stop := 9, label := [] }] : List Ent), e.start < e.stop) ∧
    resolveOverlaps (resolveOverlaps
        [{ text := [], start := 0, stop := 5, label := [] },
         { text := [], start := 3, stop := 9, label := [] }])
      = resolveOverlaps
        [{ text := [], start := 0, stop := 5, label := [] },
         { text := [], start := 3, stop := 9, label := [] }] :=
  ⟨by decide, C6_resolveOverlaps_idempotent _ (by decide)⟩

/-- C5: with the case-sensitive dictionary
`{LOCATION: ["New York", "York", "New York City"]}`, recognizing
entities in `"I love New York City."` yields exactly one resolved span:
text `"New York City"`, label `"LOCATION"`, start 7, end 20. -/
theorem C5_new_york_city :
    recognize_entities
      (add_entity_dictionary {} "LOCATION".toList
        ["New York".toList, "York".toList, "New York City".toList] true)
      "I love New York City.".toList
    = [{ text := "New York City".toList, start := 7, stop := 20,
         label := "LOCATION".toList,
         descr := some "Custom LOCATION".toList }] := by decide

theorem findFrom_spec {text pat : Str} {s p : Nat} (h : findFrom text pat s = some p) :
    s ≤ p ∧ p ≤ text.length ∧ pat <+: text.drop p := by
  have h1 := List.find?_some h
  have h2 := List.mem_of_find?_eq_some h
  simp only [Bool.and_eq_true, decide_eq_true_eq, List.isPrefixOf_iff_prefix] at h1
  simp only [List.mem_range] at h2
  exact ⟨h1.1, by omega, h1.2⟩

theorem occsGo_mem {mt st : Str} :
    ∀ {fuel s p : Nat}, p ∈ occsGo mt st fuel s →
      p ≤ mt.length ∧ st <+: mt.drop p := by
  intro fuel
  induction fuel with
  | zero => intro s p h; simp [occsGo] at h
  | succ n ih =>
    intro s p h
    simp only [occsGo] at h
    split at h
    · cases hf : findFrom mt st s with
      | none => rw [hf] at h; simp at h
      | some pos =>
        rw [hf] at h
        rcases List.mem_cons.1 h with rfl | h
        · rcases findFrom_spec hf with ⟨_, h2, h3⟩
          exact ⟨h2, h3⟩
        · exact ih h
    · simp at h

theorem mem_foldl_insertResolve :
    ∀ (l acc : List Ent) {x : Ent}, x ∈ l.foldl insertResolve acc →
      x ∈ acc ∨ x ∈ l
  | [], acc, _, h => Or.inl h
  | e :: rest, acc, x, h => by
    simp only [List.foldl_cons] at h
    rcases mem_foldl_insertResolve rest _ h with h' | h'
    · rcases mem_insertResolve h' with h'' | rfl
      · exact Or.inl h''
      · exact Or.inr (List.mem_cons_self _ _)
    · exact Or.inr (List.mem_cons_of_mem _ h')

theorem mem_resolveOverlaps {S : List Ent} {x : Ent} (h : x ∈ resolveOverlaps S) :
    x ∈ S := by
  rcases mem_foldl_insertResolve _ _ h with h' | h'
  · simp at h'
  · exact (List.mem_insertionSort startLe).1 h'

theorem mem_matchesForTerm {text : Str} {cs : Bool} {et term : Str} {e : Ent}
    (h : e ∈ matchesForTerm text cs et term) (hne : term ≠ []) :
    0 ≤ e.start ∧ e.start < e.stop ∧ e.stop ≤ (text.length : Int) ∧
      e.text = sliceI text e.start e.stop := by
  simp only [matchesForTerm, List.mem_map] at h
  rcases h with ⟨pos, hpos, rfl⟩
  have hlen : (if cs then text else lowerStr text).length = text.length := by
    cases cs <;> simp [lowerStr]
  have hlent : (if cs then term else lowerStr term).length = term.length := by
    cases cs <;> simp [lowerStr]
  rcases occsGo_mem hpos with ⟨h1, h2⟩
  have h3 : term.length ≤ text.length - pos := by
    have := h2.length_le
    simp only [List.length_drop, hlent] at this
    omega
  rw [hlen] at h1
  have htne : 0 < term.length := List.length_pos.2 hne
  have e1 : ((pos : Int)).toNat = pos := by omega
  have e2 : (((pos + term.length : Nat) : Int) - (pos : Int)).toNat = term.length := by omega
  refine ⟨by positivity, by push_cast; omega, by push_cast; omega, ?_⟩
  simp [sliceI, e1, e2]

/-- C7 (counterexample): the claim puts no constraint on term content,
but registering the empty string as a term yields a zero-width span
(`start = end = 0`), violating `start < end`. -/
theorem C7_counterexample :
    recognize_entities (add_entity_dictionary {} "T".toList [[]] true) "a".toList
        = [{ text := [], start := 0, stop := 0, label := "T".toList,
             descr := some "Custom T".toList }] ∧
      ¬ ((0 : Int) < (0 : Int)) := by decide

/-- C7 (amended): for every registered dictionary all of whose terms are
nonempty, every span returned by the dictionary recognizer satisfies
`0 <= start < end <= len(text)` and `span.text == text[start:end]`. -/
theorem C7_dictionary_span_invariant (r : DictionaryEntityRecognizer) (text : Str)
    (hterms : ∀ td ∈ r.entity_dictionaries, ∀ term ∈ td.2.terms, term ≠ []) :
    ∀ e ∈ recognize_entities r text,
      0 ≤ e.start ∧ e.start < e.stop ∧ e.stop ≤ (text.length : Int) ∧
        e.text = sliceI text e.start e.stop := by
  intro e he
  have hraw : e ∈ dictRaw r text := mem_resolveOverlaps he
  simp only [dictRaw, List.mem_flatMap] at hraw
  rcases hraw with ⟨td, htd, term, hterm, hm⟩
  exact mem_matchesForTerm hm (hterms td htd term hterm)

def entW : Ent :=
  { text := "Ab".toList, start := 1, stop := 3, label := "T".toList,
    descr := some "Custom T".toList }

theorem C7_witness :
    0 ≤ entW.start ∧ entW.start < entW.stop ∧
      entW.stop ≤ (("xAby".toList).length : Int) ∧
      entW.text = sliceI "xAby".toList entW.start entW.stop :=
  C7_dictionary_span_invariant
    (add_entity_dictionary {} "T".toList ["ab".toList] false) "xAby".toList
    (by decide) entW (by decide)

def predPP : HFPred :=
  { word := "!?".toList, start := 0, stop := 2, entity_group := "MISC".toList,
    score := some 1 }

/-- C4 (counterexample): the claim says a span whose trimmed text is
pure punctuation is absent from step 1's result, but the code's test is
substring containment in `string.punctuation`, so the pure-punctuation
word `"!?"` (not a contiguous substring of `string.punctuation`) is
kept when its score passes. -/
theorem C4_counterexample :
    filterStep1 0 [predPP] = [predToEnt predPP] ∧
      isPurePunct (pyStrip predPP.word) = true ∧
      predScore predPP > 0 := by decide

/-- C4 (amended): a step-1 prediction is kept iff its score strictly
exceeds the threshold and its trimmed text is not a contiguous
substring of Python's `string.punctuation` (for single-character texts
this coincides with "is not a punctuation character"); the kept span is
the entity dict built from the prediction. -/
theorem C4_step1_filter_characterization (t : ℚ) (preds : List HFPred) (e : Ent) :
    e ∈ filterStep1 t preds ↔
      ∃ p, p ∈ preds ∧ predScore p > t ∧
        substrB (pyStrip p.word) punctuationChars = false ∧ predToEnt p = e := by
  constructor
  · intro h
    simp only [filterStep1, List.mem_map] at h
    rcases h with ⟨p, hp, he⟩
    rcases List.mem_filter.1 hp with ⟨hmem, hk⟩
    simp only [keepPred, Bool.and_eq_true, decide_eq_true_eq, Bool.not_eq_true'] at hk
    exact ⟨p, hmem, hk.1, hk.2, he⟩
  · rintro ⟨p, hmem, hs, hpn, rfl⟩
    simp only [filterStep1, List.mem_map]
    refine ⟨p, List.mem_filter.2 ⟨hmem, ?_⟩, rfl⟩
    simp only [keepPred, Bool.and_eq_true, decide_eq_true_eq, Bool.not_eq_true']
    exact ⟨hs, hpn⟩

/-- C10 (counterexample): a score-less prediction is not always kept
when the threshold is below 1: the punctuation filter still applies,
e.g. the word `"."` is dropped at threshold 0. -/
theorem C10_counterexample :
    filterStep1 0
        [{ word := ".".toList, start := 0, stop := 1,
           entity_group := "MISC".toList, score := none }] = [] ∧
      (0 : ℚ) < 1 := by decide

/-- C10 (amended): a step-1 prediction without a score field is treated
as having confidence exactly 1.0: it is kept iff the threshold is
strictly below 1 and its trimmed text passes the punctuation filter,
and the produced span's score field equals 1.0. -/
theorem C10_missing_score_is_one (t : ℚ) (p : HFPred) (h : p.score = none) :
    keepPred t p
        = (decide (t < 1) && !(substrB (pyStrip p.word) punctuationChars)) ∧
      (predToEnt p).score = some 1 := by
  have hs : predScore p = 1 := by simp [predScore, h]
  exact ⟨by simp [keepPred, hs], by simp [predToEnt, hs]⟩

def predNS : HFPred :=
  { word := "Bob".toList, start := 0, stop := 3, entity_group := "PER".toList,
    score := none }

theorem C10_witness :
    keepPred 0 predNS
        = (decide ((0 : ℚ) < 1) && !(substrB (pyStrip predNS.word) punctuationChars)) ∧
      (predToEnt predNS).score = some 1 :=
  C10_missing_score_is_one 0 predNS rfl

/-- C2: if the text is nonempty and step 1 (the external labeler)
yields a non-empty filtered result, the cascade returns exactly that
result, and the collaborators of strategies 2-4 (direct spaCy model,
language detector, language-routed models, fallback model) are invoked
zero times. -/
theorem C2_cascade_returns_step1 (env : Env) (text model_name : Str)
    (models : Option (List (Str × SpacyFn))) (t : ℚ) (preds : List HFPred)
    (hne : text ≠ [])
    (hhf : env.hf text = .ok preds)
    (hfil : filterStep1 t preds ≠ []) :
    recognize_entities_multilingual env text model_name models t
      = (filterStep1 t preds,
         { hf := 1, spacyDirect := 0, detect := 0, langModel := 0, fallback := 0 }) := by
  simp only [recognize_entities_multilingual, if_neg hne, hhf, if_neg hfil]

def predOk : HFPred :=
  { word := "Paris".toList, start := 0, stop := 5, entity_group := "LOC".toList,
    score := some 1 }

def envStep1 : Env :=
  { hf := fun _ => .ok [predOk], pathExists := false,
    spacyDirect := fun _ _ => .error (), detect := fun _ => none,
    fallback := fun _ => .error () }

theorem C2_witness :
    recognize_entities_multilingual envStep1 "Paris".toList "m".toList none 0
      = (filterStep1 0 [predOk],
         { hf := 1, spacyDirect := 0, detect := 0, langModel := 0, fallback := 0 }) :=
  C2_cascade_returns_step1 envStep1 "Paris".toList "m".toList none 0 [predOk]
    (by decide) rfl (by decide)

theorem cascadeFrom4_empty {env : Env} {text : Str}
    (h4 : ∀ ents, env.fallback text = .ok ents → ents.filter keepSp = []) :
    (cascadeFrom4 env text).1 = [] := by
  unfold cascadeFrom4
  cases hf : env.fallback text with
  | error e => rfl
  | ok ents => simp [h4 ents hf]

theorem cascadeFrom3_empty {env : Env} {models : Option (List (Str × SpacyFn))} {text : Str}
    (h3 : ∀ ms, models = some ms →
      (step3Go env ms (splitSentences text) 0 []).2 = .error () ∨
      (step3Go env ms (splitSentences text) 0 []).2 = .ok [])
    (h4 : ∀ ents, env.fallback text = .ok ents → ents.filter keepSp = []) :
    (cascadeFrom3 env models text).1 = [] := by
  unfold cascadeFrom3
  cases models with
  | none => exact cascadeFrom4_empty h4
  | some ms =>
    rcases h3 ms rfl with h | h <;> simp only [h]
    · exact cascadeFrom4_empty h4
    · simp [cascadeFrom4_empty h4]

theorem cascadeFrom2_empty {env : Env} {model_name : Str}
    {models : Option (List (Str × SpacyFn))} {text : Str}
    (h2 : ∀ ents, env.spacyDirect model_name text = .ok ents → ents.filter keepSp = [])
    (h3 : ∀ ms, models = some ms →
      (step3Go env ms (splitSentences text) 0 []).2 = .error () ∨
      (step3Go env ms (splitSentences text) 0 []).2 = .ok [])
    (h4 : ∀ ents, env.fallback text = .ok ents → ents.filter keepSp = []) :
    (cascadeFrom2 env model_name models text).1 = [] := by
  unfold cascadeFrom2
  by_cases htrig : step2Trigger env model_name
  · simp only [if_pos htrig]
    cases hsp : env.spacyDirect model_name text with
    | error e => simp [cascadeFrom3_empty h3 h4]
    | ok ents => simp [h2 ents hsp, cascadeFrom3_empty h3 h4]
  · simp only [if_neg htrig]
    exact cascadeFrom3_empty h3 h4

/-- C3: the cascade never propagates a collaborator exception (each
strategy's exception is treated as an empty result and the cascade
advances), and when every strategy yields an empty post-filter result
or raises, the cascade returns the empty list. -/
theorem C3_cascade_all_fail_empty (env : Env) (text model_name : Str)
    (models : Option (List (Str × SpacyFn))) (t : ℚ)
    (h1 : ∀ preds, env.hf text = .ok preds → filterStep1 t preds = [])
    (h2 : ∀ ents, env.spacyDirect model_name text = .ok ents → ents.filter keepSp = [])
    (h3 : ∀ ms, models = some ms →
      (step3Go env ms (splitSentences text) 0 []).2 = .error () ∨
      (step3Go env ms (splitSentences text) 0 []).2 = .ok [])
    (h4 : ∀ ents, env.fallback text = .ok ents → ents.filter keepSp = []) :
    (recognize_entities_multilingual env text model_name models t).1 = [] := by
  unfold recognize_entities_multilingual
  by_cases htext : text = []
  · simp [htext]
  · simp only [if_neg htext]
    cases hhf : env.hf text with
    | error e => simp [cascadeFrom2_empty h2 h3 h4]
    | ok preds => simp [h1 preds hhf, cascadeFrom2_empty h2 h3 h4]

def envFail : Env :=
  { hf := fun _ => .error (), pathExists := true,
    spacyDirect := fun _ _ => .error (), detect := fun _ => none,
    fallback := fun _ => .error () }

theorem C3_witness :
    (recognize_entities_multilingual envFail "Bob".toList "m".toList none 0).1 = [] :=
  C3_cascade_all_fail_empty envFail "Bob".toList "m".toList none 0
    (fun _ h => nomatch h) (fun _ h => nomatch h) (fun _ h => nomatch h)
    (fun _ h => nomatch h)

theorem matchesForTerm_nil (cs : Bool) (et term : Str) :
    matchesForTerm [] cs et term = [] := by
  cases cs <;> simp [matchesForTerm, occs, occsGo, lowerStr]

theorem dictRaw_nil (r : DictionaryEntityRecognizer) : dictRaw r [] = [] := by
  unfold dictRaw
  induction r.entity_dictionaries with
  | nil => rfl
  | cons td rest ih =>
    simp only [List.flatMap_cons, ih, List.append_nil]
    induction td.2.terms with
    | nil => rfl
    | cons term ts ih2 => simp [matchesForTerm_nil, ih2]

/-- C8: on the empty string, every core public operation — dictionary
matching, the recognition cascade, and token-aligned multilingual
processing — returns an empty result with zero invocations of the
span-labeler and language-classifier collaborators. -/
theorem C8_empty_input (r : DictionaryEntityRecognizer) (env : Env) (pme : PMEnv)
    (model_name : Str) (models : Option (List (Str × SpacyFn)))
    (language_models : List (Str × SpacyFn)) (normalize : Bool) (t t' : ℚ) :
    recognize_entities r [] = [] ∧
      recognize_entities_multilingual env [] model_name models t = ([], {}) ∧
      process_multi pme [] model_name language_models normalize t' = ([], {}) := by
  refine ⟨?_, by simp [recognize_entities_multilingual], by simp [process_multi]⟩
  simp [recognize_entities, dictRaw_nil, resolveOverlaps]

theorem splitSpans_exact (detect : Str → Option Str) (text : Str) :
    ∀ (l acc : Str) (mode : Bool) (p : Nat),
      text.drop p = acc.reverse ++ l →
      List.Chain' (fun a b => ¬ (a.isWhitespace ∧ b.isWhitespace)) l →
      (mode = true → acc = [] ∧ ∀ c, l.head? = some c → c.isWhitespace = false) →
      ∀ sp ∈ sentenceSpansGo detect (splitGo l acc mode) p,
        sp.stop = sp.start + sp.text.length ∧
        (text.drop sp.start).take sp.text.length = sp.text := by
  intro l
  induction l with
  | nil =>
    intro acc mode p hdrop _ _ sp hsp
    rw [List.append_nil] at hdrop
    by_cases hacc : acc.reverse = []
    · simp [splitGo, sentenceSpansGo, hacc] at hsp
    · simp only [splitGo, sentenceSpansGo, if_neg hacc] at hsp
      rcases List.mem_cons.1 hsp with rfl | hsp'
      · exact ⟨rfl, by simp [hdrop]⟩
      · simp [sentenceSpansGo] at hsp'
  | cons c rest ih =>
    intro acc mode p hdrop hchain hmode
    cases mode with
    | true =>
      rcases hmode rfl with ⟨rfl, hhead⟩
      have hcws : c.isWhitespace = false := hhead c rfl
      have hstep : splitGo (c :: rest) [] true = splitGo rest [c] false := by
        simp [splitGo, hcws]
      intro sp hsp
      rw [hstep] at hsp
      refine ih [c] false p ?_ (List.Chain'.tail hchain) (by simp) sp hsp
      simpa using hdrop
    | false =>
      by_cases hzz : (c.isWhitespace && headSentEnd acc) = true
      · have hzz' := hzz
        rw [Bool.and_eq_true] at hzz'
        have hcw : c.isWhitespace = true := hzz'.1
        have haccne : acc.reverse ≠ [] := by
          cases acc with
          | nil => simp [headSentEnd] at hzz
          | cons a as => simp
        have hstep : splitGo (c :: rest) acc false
            = acc.reverse :: splitGo rest [] true := by
          simp [splitGo, hzz]
        intro sp hsp
        rw [hstep] at hsp
        simp only [sentenceSpansGo, if_neg haccne] at hsp
        rcases List.mem_cons.1 hsp with rfl | hsp'
        · refine ⟨rfl, ?_⟩
          rw [hdrop]
          simpa using List.take_left acc.reverse (c :: rest)
        · have hfact : text.drop p = (acc.reverse ++ [c]) ++ rest := by
            simpa [List.append_assoc] using hdrop
          have hd : text.drop (p + acc.reverse.length + 1) = rest := by
            have h1 : p + acc.reverse.length + 1
                = p + (acc.reverse ++ [c]).length := by simp; omega
            rw [h1, ← List.drop_drop, hfact]
            have := @List.drop_append _ (acc.reverse ++ [c]) rest 0
            simpa using this
          rcases List.chain'_cons'.1 hchain with ⟨hrel, htl⟩
          refine ih [] true (p + acc.reverse.length + 1) (by simpa using hd) htl
            ?_ sp hsp'
          intro _
          refine ⟨rfl, ?_⟩
          intro c' hc'
          have := hrel c' hc'
          simpa [hcw] using this
      · have hstep : splitGo (c :: rest) acc false = splitGo rest (c :: acc) false := by
          simp only [splitGo, hzz]
          simp [Bool.not_eq_true] at hzz
          simp [hzz]
        intro sp hsp
        rw [hstep] at hsp
        refine ih (c :: acc) false p ?_ (List.Chain'.tail hchain) (by simp) sp hsp
        simpa [List.append_assoc] using hdrop

/-- C9 (counterexample): segment offsets are not exact character
offsets in general: on `"A.  B"` (two spaces after the period) the
segment `"B"` sits at offset 4, but the cursor (advanced by segment
length + 1) records start 3, and `text[3:4]` is `" "`, not `"B"`. -/
theorem C9_counterexample :
    sentence_spans (fun _ => none) "A.  B".toList
        = [{ text := "A.".toList, start := 0, stop := 2, language := none },
           { text := "B".toList, start := 3, stop := 4, language := none }] ∧
      ("A.  B".toList.drop 3).take 1 ≠ "B".toList := by decide

/-- No two adjacent whitespace characters (so every split delimiter is
a single whitespace character); executable form. -/
def noDoubleWsB : Str → Bool
  | a :: b :: t => (!(a.isWhitespace && b.isWhitespace)) && noDoubleWsB (b :: t)
  | _ => true

theorem chain'_of_noDoubleWsB :
    ∀ {l : Str}, noDoubleWsB l = true →
      List.Chain' (fun a b => ¬ (a.isWhitespace ∧ b.isWhitespace)) l
  | [], _ => List.chain'_nil
  | [a], _ => List.chain'_singleton a
  | a :: b :: t, h => by
    rw [noDoubleWsB, Bool.and_eq_true] at h
    refine List.chain'_cons.2 ⟨?_, chain'_of_noDoubleWsB h.2⟩
    intro hc
    have h1 := h.1
    rw [hc.1, hc.2] at h1
    simp at h1

/-- C9 (amended): sentence segmentation splits on sentence-terminal
punctuation (`.`, `!`, `?`) followed by whitespace, drops empty
segments, and assigns offsets from a running cursor advanced by segment
length plus 1 for the delimiter; these cursor offsets are the segment's
exact character offsets in the original text whenever the text has no
two adjacent whitespace characters (i.e. every delimiter is a single
whitespace character). -/
theorem C9_sentence_spans_cursor_offsets (detect : Str → Option Str) (text : Str)
    (hws : noDoubleWsB text = true) :
    ∀ sp ∈ sentence_spans detect text,
      sp.stop = sp.start + sp.text.length ∧
      (text.drop sp.start).take sp.text.length = sp.text := by
  have h := splitSpans_exact detect text text [] false 0 (by simp)
    (chain'_of_noDoubleWsB hws) (by simp)
  simpa [sentence_spans, splitSentences] using h

def spanB : SentSpan := { text := "B".toList, start := 3, stop := 4, language := none }

theorem C9_witness :
    spanB.stop = spanB.start + spanB.text.length ∧
      ("A. B".toList.drop spanB.start).take spanB.text.length = spanB.text :=
  C9_sentence_spans_cursor_offsets (fun _ => none) "A. B".toList (by decide)
    spanB (by decide)
